import Mathlib

/-!
Verification of the cbc-sl stream-resolution pipeline.

Shallow embedding of the Rust sources in src/main.rs and src/api.rs:
pure functions become Lean functions, machine integers become Nat/Int
with explicit bounds where overflow matters, and fallible code returns
Except/Option.  String algorithms are modelled over List Char, the
character sequence underlying a Rust str.
-/

namespace CbcSl

deriving instance DecidableEq for Except

/-!
HLS master playlist selection, from src/main.rs.

The external hls_m3u8 crate parses the playlist text into a vector of
VariantStream values; each variant (both the ExtXStreamInf and the
ExtXIFrame constructor) carries a BANDWIDTH attribute and a URI.  The
parser itself is an external crate, so the embedding starts from the
parsed variant list.
-/

/-- Model of hls_m3u8 VariantStream: either a standard variant or an
I-frame variant, each carrying a bandwidth and a URI (the two fields
read by the code under verification). -/
inductive VariantStream where
  | extXStreamInf (bandwidth : Nat) (uri : String)
  | extXIFrame (bandwidth : Nat) (uri : String)

deriving instance DecidableEq for VariantStream

/-- Model of VariantStream.bandwidth, present on both constructors. -/
def VariantStream.bandwidth : VariantStream → Nat
  | .extXStreamInf b _ => b
  | .extXIFrame b _ => b

/-- Model of the uri extension method in src/main.rs, which returns the
uri field of either constructor. -/
def VariantStream.uri : VariantStream → String
  | .extXStreamInf _ u => u
  | .extXIFrame _ u => u

/-- Comparison by bandwidth, the sort key used by parse_master_playlist. -/
def bwLE (a b : VariantStream) : Prop := a.bandwidth ≤ b.bandwidth

instance : DecidableRel bwLE :=
  fun a b => inferInstanceAs (Decidable (a.bandwidth ≤ b.bandwidth))

instance : IsTotal VariantStream bwLE :=
  ⟨fun a b => Nat.le_total a.bandwidth b.bandwidth⟩

instance : IsTrans VariantStream bwLE :=
  ⟨fun _ _ _ hab hbc => Nat.le_trans hab hbc⟩

/-- Model of parse_master_playlist in src/main.rs: ensure the variant
list is nonempty, stably sort ascending by bandwidth (Vec sort_by_key is
a stable sort, modelled by insertion sort, which is stable), reverse,
and return the URI of the first element.  The inner none branch is
unreachable because sorting preserves length. -/
def parse_master_playlist (variant : List VariantStream) : Except String String :=
  if variant.isEmpty then .error "no streams found"
  else
    match (List.insertionSort bwLE variant).reverse.head? with
    | none => .error "no streams found"
    | some best => .ok best.uri

/-- Model of the url crate Url value as used by get_best_stream: scheme,
host, path segments and optional query.  Serialization always writes a
leading slash, matching Url as_str for URLs with a host. -/
structure SimpleUrl where
  scheme : String
  host : String
  path : List String
  query : Option String

/-- Serialization of a SimpleUrl, modelling Url as_str. -/
def urlString (u : SimpleUrl) : String :=
  u.scheme ++ "://" ++ u.host ++ "/" ++ String.intercalate "/" u.path ++
    (match u.query with
     | none => ""
     | some q => "?" ++ q)

/-- Model of get_best_stream in src/main.rs: pick the best variant URI,
clear the query of the master URL (set_query None), drop the last path
segment (path_segments_mut pop), and append a slash and the variant URI. -/
def get_best_stream (url : SimpleUrl) (mp : List VariantStream) : Except String String :=
  match parse_master_playlist mp with
  | .error e => .error e
  | .ok best =>
    let stripped : SimpleUrl := { url with query := none }
    let popped : SimpleUrl := { stripped with path := stripped.path.dropLast }
    .ok (urlString popped ++ "/" ++ best)

/-- The containing directory of a master playlist URL, written from the
spec wording: the master URL with its query string stripped and its last
path segment removed. -/
def containingDirectory (u : SimpleUrl) : String :=
  urlString { scheme := u.scheme, host := u.host, path := u.path.dropLast, query := none }

/-!
Timeline classification, from src/main.rs (MpxItem to_human) and
src/api.rs (Node is_live and Node to_human).
-/

/-- The three-way display state produced by the listing code: the
STARTED note, the UPCOMING note, or the plain replay note. -/
inductive TimelineState where
  | started
  | upcoming
  | replay

deriving instance DecidableEq for TimelineState

/-- Model of the VidState enum in src/main.rs. -/
inductive VidState where
  | liveOrUpcoming
  | replay

/-- Classification part of MpxItem to_human in src/main.rs: for the
live-or-upcoming listing the note is STARTED exactly when the current
Utc timestamp in milliseconds is at least air_date, else UPCOMING; for
the replay listing the note is always the plain one.  Colors and the
surrounding text are presentation and are not modelled. -/
def mpx_classify (state : VidState) (air_ms now_ms : Int) : TimelineState :=
  match state with
  | .liveOrUpcoming => if now_ms ≥ air_ms then .started else .upcoming
  | .replay => .replay

/-- Model of the Flag enum in src/api.rs. -/
inductive Flag where
  | live
  | video

deriving instance DecidableEq for Flag

/-- Model of Node is_live in src/api.rs: start is the published
timestamp, end is start plus the rounded duration in seconds, and the
item is live when start <= now <= end.  Instants are modelled in
milliseconds; duration_s is the already-rounded integer number of
seconds the code computes from the floating duration field. -/
def node_is_live (published_ms duration_s now_ms : Int) : Bool :=
  decide (published_ms ≤ now_ms) && decide (now_ms ≤ published_ms + duration_s * 1000)

/-- Classification part of Node to_human in src/api.rs: items flagged
Live get STARTED or UPCOMING according to is_live, all other items get
the plain replay note. -/
def node_classify (flag : Flag) (published_ms duration_s now_ms : Int) : TimelineState :=
  match flag with
  | .live =>
    if node_is_live published_ms duration_s now_ms then .started else .upcoming
  | .video => .replay

/-!
Air-time format choice, from MpxItem to_human in src/main.rs and Node
to_human in src/api.rs.  The local timezone is modelled as a fixed
offset in seconds from UTC; the calendar date of an instant in that zone
is its floored day number since the epoch after shifting by the offset.
-/

/-- The two strftime formats chosen by to_human. -/
inductive TimeFmt where
  | hm
  | mdhm

deriving instance DecidableEq for TimeFmt

/-- Model of the air_date conversion in src/main.rs: milliseconds to
seconds by truncating division, as Rust i64 division truncates. -/
def mpx_air_secs (air_ms : Int) : Int := air_ms / 1000

/-- Local calendar day number of an instant given in seconds, for a
zone at a fixed offset of offset_s seconds from UTC. -/
def localDate (offset_s t_s : Int) : Int := Int.fdiv (t_s + offset_s) 86400

/-- Format choice in to_human: the short HH:MM format exactly when the
local calendar date of now equals the local calendar date of the air
instant, else the long MMM DD HH:MM format. -/
def fmt_choice (offset_s now_s air_ms : Int) : TimeFmt :=
  if localDate offset_s now_s = localDate offset_s (mpx_air_secs air_ms) then .hm
  else .mdhm

/-!
Identifier handling, from src/main.rs (is_numeric, probably_cbc,
parse_cbc_id and the ID_REGEX) and src/api.rs (Node proper_id).
-/

/-- Model of the is_numeric extension method in src/main.rs: nonempty
and all characters are ASCII digits. -/
def is_numeric (s : List Char) : Bool :=
  !s.isEmpty && s.all (fun c => c.isDigit)

/-- Numeric value of a digit string read in decimal. -/
def digitsVal (s : List Char) : Nat :=
  s.foldl (fun n c => n * 10 + (c.toNat - Char.toNat '0')) 0

/-- Removal of the optional leading plus sign accepted by the Rust u64
parser. -/
def strip_plus : List Char → List Char
  | '+' :: rest => rest
  | s => s

/-- Model of Rust str parse into u64: an optional leading plus sign,
then at least one ASCII digit, and the value must fit in 64 bits.  Rust
uses checked arithmetic digit by digit; since the accumulated value only
grows, that is equivalent to a final bound check. -/
def parse_u64 (s : List Char) : Option Nat :=
  let digits := strip_plus s
  if digits.isEmpty || !(digits.all (fun c => c.isDigit)) then none
  else if digitsVal digits < 18446744073709551616 then some (digitsVal digits)
  else none

/-- Boolean test that pattern pat is an initial segment of a character
list, used by the substring search and replacement models. -/
def headMatch : List Char → List Char → Bool
  | [], _ => true
  | _ :: _, [] => false
  | p :: ps, c :: cs => if p = c then headMatch ps cs else false

/-- The literal part of ID_REGEX in src/main.rs. -/
def idMarker : List Char :=
  ['h', 't', 't', 'p', 's', ':', '/', '/', 'w', 'w', 'w', '.', 'c', 'b', 'c',
   '.', 'c', 'a', '/', 'p', 'l', 'a', 'y', 'e', 'r', '/', 'p', 'l', 'a', 'y', '/']

/-- Model of ID_REGEX captures group 1: at the leftmost position where
the literal marker occurs followed by at least one ASCII digit, capture
the maximal digit run after the marker; none when the regex does not
match anywhere. -/
def id_regex_captures : List Char → Option (List Char)
  | [] => none
  | c :: cs =>
    let rest := (c :: cs).drop idMarker.length
    let run := rest.takeWhile (fun d => d.isDigit)
    if headMatch idMarker (c :: cs) && !run.isEmpty then some run
    else id_regex_captures cs

/-- Model of probably_cbc in src/main.rs, the clap validator for the
positional argument: Ok when the input is numeric or ID_REGEX matches,
else the invalid url error. -/
def probably_cbc (input : List Char) : Except String Unit :=
  if is_numeric input || (id_regex_captures input).isSome then .ok ()
  else .error "invalid url"

/-- Model of parse_cbc_id in src/main.rs.  The outer Option models
panic-freedom: none stands for the panic of the unwrap on a failed
regex capture, some for normal return of the inner Result.  The Rust
integer-parse overflow error keeps its upstream message. -/
def parse_cbc_id (input : List Char) : Option (Except String Nat) :=
  if is_numeric input then
    some (match parse_u64 input with
          | some n => .ok n
          | none => .error "number too large to fit in target type")
  else
    match id_regex_captures input with
    | none => none
    | some digits =>
      some (match parse_u64 digits with
            | some n => .ok n
            | none => .error "number too large to fit in target type")

/-- The resolution path of the program: clap runs the probably_cbc
validator on the positional argument and reports its error without
calling anything else; only accepted inputs reach parse_cbc_id in main. -/
def cli_resolve (input : List Char) : Option (Except String Nat) :=
  match probably_cbc input with
  | .error e => some (.error e)
  | .ok _ => parse_cbc_id input

/-- Model of Node proper_id in src/api.rs: split the url at every
slash and keep the last piece, that is, the suffix after the last
slash (the whole string when it has no slash).  The fold resets the
accumulator at each slash, which is exactly split followed by last. -/
def proper_id (url : List Char) : List Char :=
  url.foldl (fun acc c => if c = '/' then [] else acc ++ [c]) []

/-!
Proxy specification rewriting, from proxy_url_ureq and
proxy_url_streamlink in src/main.rs.  Rust replacen with count 1
replaces the leftmost occurrence only; contains is substring search.
-/

/-- Character list of the pattern socks5h: . -/
def pS5h : List Char := ['s', 'o', 'c', 'k', 's', '5', 'h', ':']

/-- Character list of the pattern socks5: . -/
def pS5 : List Char := ['s', 'o', 'c', 'k', 's', '5', ':']

/-- Character list of the pattern socks4: . -/
def pS4 : List Char := ['s', 'o', 'c', 'k', 's', '4', ':']

/-- Character list of the pattern socks4a: . -/
def pS4a : List Char := ['s', 'o', 'c', 'k', 's', '4', 'a', ':']

/-- Character list of the scheme separator. -/
def pSep : List Char := [':', '/', '/']

/-- Character list of the default scheme added by proxy_url_ureq. -/
def pS5url : List Char := ['s', 'o', 'c', 'k', 's', '5', ':', '/', '/']

/-- Character list of the default scheme added by proxy_url_streamlink. -/
def pS5hurl : List Char := ['s', 'o', 'c', 'k', 's', '5', 'h', ':', '/', '/']

/-- Character list of the socks4 scheme with separator. -/
def pS4url : List Char := ['s', 'o', 'c', 'k', 's', '4', ':', '/', '/']

/-- Character list of the socks4a scheme with separator. -/
def pS4aurl : List Char := ['s', 'o', 'c', 'k', 's', '4', 'a', ':', '/', '/']

/-- Substring containment test, modelling Rust str contains. -/
def lcContains (pat : List Char) : List Char → Bool
  | [] => pat.isEmpty
  | c :: cs => headMatch pat (c :: cs) || lcContains pat cs

/-- Replacement of the leftmost occurrence of pat by rep, modelling
Rust str replacen with count 1. -/
def replaceFirst (pat rep : List Char) : List Char → List Char
  | [] => []
  | c :: cs =>
    if headMatch pat (c :: cs) then rep ++ (c :: cs).drop pat.length
    else c :: replaceFirst pat rep cs

/-- Model of proxy_url_ureq in src/main.rs: rewrite the first socks5h:
to socks5:, then the first socks4: to socks4a:, then prefix socks5://
when the result has no scheme separator. -/
def proxy_url_ureq (s : List Char) : List Char :=
  let s1 := replaceFirst pS5h pS5 s
  let s2 := replaceFirst pS4 pS4a s1
  if lcContains pSep s2 then s2 else pS5url ++ s2

/-- Model of proxy_url_streamlink in src/main.rs: rewrite the first
socks5: to socks5h:, then the first socks4: to socks4a:, then prefix
socks5h:// when the result has no scheme separator. -/
def proxy_url_streamlink (s : List Char) : List Char :=
  let s1 := replaceFirst pS5 pS5h s
  let s2 := replaceFirst pS4 pS4a s1
  if lcContains pSep s2 then s2 else pS5hurl ++ s2

/-!
Bistro order selection, from main in src/main.rs.
-/

/-- Model of AssetDescriptor in src/main.rs (the two deserialized
fields). -/
structure AssetDescriptor where
  loader : String
  key : String

/-- Model of OrderItem in src/main.rs (only the deserialized field). -/
structure OrderItem where
  asset_descriptors : List AssetDescriptor

/-- Model of Bistro in src/main.rs. -/
structure Bistro where
  items : List OrderItem

/-- Model of the descriptor selection in main, src/main.rs lines
249 to 256: take the first order item (error when the list is empty),
find the first asset descriptor whose loader is PlatformLoader (error
naming the loader when none matches), and return its key. -/
def bistro_select (bistro : Bistro) : Except String String :=
  match bistro.items.head? with
  | none => .error "missing item"
  | some first =>
    match first.asset_descriptors.find? (fun d => d.loader == "PlatformLoader") with
    | none => .error "couldn't find PlatformLoader - are you Canadian?"
    | some desc => .ok desc.key

/-!
Supporting lemmas about insertion sort and getLast, used to settle the
playlist-selection claims.
-/

theorem lem_getLast?_cons_of_ne_nil {α : Type _} (a : α) {l : List α} (h : l ≠ []) :
    (a :: l).getLast? = l.getLast? := by
  cases l with
  | nil => exact absurd rfl h
  | cons b t => exact List.getLast?_cons_cons

theorem lem_orderedInsert_ne_nil (x : VariantStream) (l : List VariantStream) :
    List.orderedInsert bwLE x l ≠ [] := by
  cases l with
  | nil => simp
  | cons y t =>
    rw [List.orderedInsert]
    split <;> simp

theorem lem_orderedInsert_all_lt (x : VariantStream) :
    ∀ l : List VariantStream, (∀ y ∈ l, ¬ bwLE x y) →
      List.orderedInsert bwLE x l = l ++ [x]
  | [], _ => rfl
  | y :: t, h => by
    rw [List.orderedInsert, if_neg (h y (List.mem_cons_self y t)),
      lem_orderedInsert_all_lt x t (fun z hz => h z (List.mem_cons_of_mem y hz))]
    rfl

theorem lem_orderedInsert_getLast (x v : VariantStream) :
    ∀ l : List VariantStream, l.getLast? = some v → bwLE x v →
      (List.orderedInsert bwLE x l).getLast? = some v
  | [], h, _ => by simp at h
  | [z], h, hxv => by
    have hz : z = v := by simpa using h
    subst hz
    rw [List.orderedInsert, if_pos hxv]
    simp
  | z :: w :: t, h, hxv => by
    have ht : (w :: t).getLast? = some v := by
      simpa [List.getLast?_cons_cons] using h
    rw [List.orderedInsert]
    split
    · rw [List.getLast?_cons_cons, List.getLast?_cons_cons]
      exact ht
    · rw [lem_getLast?_cons_of_ne_nil z (lem_orderedInsert_ne_nil x (w :: t))]
      exact lem_orderedInsert_getLast x v (w :: t) ht hxv

theorem lem_sorted_getLast_max {v : VariantStream} :
    ∀ l : List VariantStream, List.Sorted bwLE l → l.getLast? = some v →
      ∀ u ∈ l, u.bandwidth ≤ v.bandwidth
  | [], _, h => by simp at h
  | [z], _, h => by
    intro u hu
    have hu2 : u = z := by simpa using hu
    have hz : z = v := by simpa using h
    subst hu2
    rw [hz]
  | z :: w :: t, hs, h => by
    have ht : (w :: t).getLast? = some v := by
      simpa [List.getLast?_cons_cons] using h
    rw [List.sorted_cons] at hs
    intro u hu
    rcases List.mem_cons.mp hu with rfl | hu2
    · exact hs.1 v (List.mem_of_getLast?_eq_some ht)
    · exact lem_sorted_getLast_max (w :: t) hs.2 ht u hu2

theorem lem_insertionSort_getLast_split (v : VariantStream) :
    ∀ l₁ l₂ : List VariantStream, (∀ u ∈ l₁, u.bandwidth ≤ v.bandwidth) →
      (∀ u ∈ l₂, u.bandwidth < v.bandwidth) →
      (List.insertionSort bwLE (l₁ ++ v :: l₂)).getLast? = some v
  | [], l₂, _, h₂ => by
    rw [List.nil_append, List.insertionSort,
      lem_orderedInsert_all_lt v (List.insertionSort bwLE l₂)
        (fun y hy => Nat.not_le.mpr (h₂ y ((List.mem_insertionSort bwLE).mp hy)))]
    exact List.getLast?_concat _
  | x :: l₁, l₂, h₁, h₂ => by
    rw [List.cons_append, List.insertionSort]
    exact lem_orderedInsert_getLast x v _
      (lem_insertionSort_getLast_split v l₁ l₂
        (fun u hu => h₁ u (List.mem_cons_of_mem x hu)) h₂)
      (h₁ x (List.mem_cons_self x l₁))

/-!
Claim theorems for the playlist selector.
-/

/-- C1: on an empty variant list parse_master_playlist returns the
no-streams error, and on a nonempty list (standard and I-frame variants
alike, ties included) it returns Ok with the URI of a variant whose
bandwidth is maximal among all collected variants. -/
theorem c1_parse_master_playlist_selects_max (variant : List VariantStream) :
    (variant = [] → parse_master_playlist variant = .error "no streams found") ∧
    (variant ≠ [] →
      ∃ v ∈ variant, parse_master_playlist variant = .ok v.uri ∧
        ∀ u ∈ variant, u.bandwidth ≤ v.bandwidth) := by
  constructor
  · rintro rfl
    rfl
  · intro hne
    have hsne : List.insertionSort bwLE variant ≠ [] := by
      intro h0
      have hl := (List.perm_insertionSort bwLE variant).length_eq
      rw [h0] at hl
      exact hne (List.length_eq_zero.mp hl.symm)
    obtain ⟨v, hv⟩ : ∃ v, (List.insertionSort bwLE variant).getLast? = some v := by
      cases hlast : (List.insertionSort bwLE variant).getLast? with
      | none => exact absurd (List.getLast?_eq_none_iff.mp hlast) hsne
      | some v => exact ⟨v, rfl⟩
    have hemp : variant.isEmpty = false := by
      simpa [List.isEmpty_eq_false] using hne
    refine ⟨v, (List.mem_insertionSort bwLE).mp (List.mem_of_getLast?_eq_some hv), ?_, ?_⟩
    · simp [parse_master_playlist, hemp, List.head?_reverse, hv]
    · intro u hu
      exact lem_sorted_getLast_max _ (List.sorted_insertionSort bwLE variant) hv u
        ((List.mem_insertionSort bwLE).mpr hu)

/-- Witness for C1 at the bandwidth set of the spec example: the variant
tagged 3000000 is selected. -/
theorem c1_witness :
    ∃ v ∈ [VariantStream.extXStreamInf 800000 "low",
        VariantStream.extXStreamInf 3000000 "high",
        VariantStream.extXStreamInf 1200000 "mid"],
      parse_master_playlist [VariantStream.extXStreamInf 800000 "low",
          VariantStream.extXStreamInf 3000000 "high",
          VariantStream.extXStreamInf 1200000 "mid"] = .ok v.uri ∧
        ∀ u ∈ [VariantStream.extXStreamInf 800000 "low",
            VariantStream.extXStreamInf 3000000 "high",
            VariantStream.extXStreamInf 1200000 "mid"],
          u.bandwidth ≤ v.bandwidth :=
  (c1_parse_master_playlist_selects_max _).2 (by decide)

/-- C10: among several variants tied for the maximal bandwidth, the one
that appears last in document order is returned: everything before it is
at most its bandwidth and everything after it is strictly below. -/
theorem c10_tie_break_last_maximum (l₁ l₂ : List VariantStream) (v : VariantStream)
    (h₁ : ∀ u ∈ l₁, u.bandwidth ≤ v.bandwidth)
    (h₂ : ∀ u ∈ l₂, u.bandwidth < v.bandwidth) :
    parse_master_playlist (l₁ ++ v :: l₂) = .ok v.uri := by
  have hemp : (l₁ ++ v :: l₂).isEmpty = false := by
    simp [List.isEmpty_eq_false]
  have hlast := lem_insertionSort_getLast_split v l₁ l₂ h₁ h₂
  simp [parse_master_playlist, hemp, List.head?_reverse, hlast]

/-- Witness for C10: two variants tied at bandwidth 5; the second of the
tied ones is returned. -/
theorem c10_witness :
    parse_master_playlist [VariantStream.extXStreamInf 5 "a",
      VariantStream.extXIFrame 5 "b", VariantStream.extXStreamInf 3 "c"] = .ok "b" :=
  c10_tie_break_last_maximum [VariantStream.extXStreamInf 5 "a"]
    [VariantStream.extXStreamInf 3 "c"] (VariantStream.extXIFrame 5 "b")
    (by decide) (by decide)

/-- C5: for a variant URI chosen by the playlist selector, the absolute
URL built by get_best_stream is the containing directory of the master
playlist URL (query stripped, last path segment removed) followed by a
slash and the variant URI. -/
theorem c5_absolute_url_from_directory (u : SimpleUrl) (mp : List VariantStream)
    (best : String) (h : parse_master_playlist mp = .ok best) :
    get_best_stream u mp = .ok (containingDirectory u ++ "/" ++ best) := by
  simp [get_best_stream, h, containingDirectory]

/-- Witness for C5 at a concrete master URL with a query string and a
three-segment path. -/
theorem c5_witness :
    get_best_stream (SimpleUrl.mk "https" "example.com" ["path", "to", "master.m3u8"]
        (some "tok=1")) [VariantStream.extXStreamInf 100 "variant.m3u8"] =
      .ok "https://example.com/path/to/variant.m3u8" := by
  rw [c5_absolute_url_from_directory _ _ "variant.m3u8" (by decide)]
  decide

/-!
Claim theorems for the timeline classifier and the air-time format.
-/

/-- C3: for live or upcoming items the classifier yields Started exactly
when the air instant is at or before now (and, in the generation that
knows a duration, also now is at or before air plus duration), else
Upcoming; items in the replay or on-demand category always classify as
Replay, whatever the timestamps. -/
theorem c3_timeline_classification (air now start dur : Int) :
    (mpx_classify .liveOrUpcoming air now = .started ↔ air ≤ now) ∧
    mpx_classify .replay air now = .replay ∧
    (node_classify .live start dur now = .started ↔
      start ≤ now ∧ now ≤ start + dur * 1000) ∧
    node_classify .video start dur now = .replay := by
  refine ⟨?_, rfl, ?_, rfl⟩
  · by_cases h : air ≤ now <;> simp [mpx_classify, ge_iff_le, h]
  · by_cases h1 : start ≤ now <;> by_cases h2 : now ≤ start + dur * 1000 <;>
      simp [node_classify, node_is_live, h1, h2]

/-- C4: the air time is rendered HH:MM exactly when the local calendar
date of the air instant equals the local calendar date of now; the
comparison is over local dates, as witnessed by an air instant at 23:50
local (UTC minus 4) with now at 00:10 local the next day, which uses the
long format although both instants fall on the same UTC day. -/
theorem c4_same_day_uses_local_dates (off now_s air_ms : Int) :
    (fmt_choice off now_s air_ms = .hm ↔
      localDate off now_s = localDate off (mpx_air_secs air_ms)) ∧
    fmt_choice (-14400) 1748751000 1748749800000 = .mdhm ∧
    localDate 0 1748751000 = localDate 0 (mpx_air_secs 1748749800000) := by
  refine ⟨?_, by decide, by decide⟩
  by_cases h : localDate off now_s = localDate off (mpx_air_secs air_ms) <;>
    simp [fmt_choice, h]

/-!
Claim theorems for identifier resolution.
-/

/-- C2 counterexample: the generation-C resolver proper_id keeps the
whole final path segment of the watch URL; on a slug ending in a numeric
ID it does not return the part after the last dash. -/
theorem c2_counterexample :
    proper_id ("https://www.cbc.ca/player/play/video/event-name-30045".toList) =
      "event-name-30045".toList ∧
    proper_id ("https://www.cbc.ca/player/play/video/event-name-30045".toList) ≠
      "30045".toList := by
  constructor
  · decide
  · decide

theorem lem_proper_id_no_slash :
    ∀ b : List Char, '/' ∉ b → ∀ acc : List Char,
      b.foldl (fun acc c => if c = '/' then [] else acc ++ [c]) acc = acc ++ b
  | [], _, acc => by simp
  | c :: t, h, acc => by
    have hc : ¬ c = '/' := fun hcc => h (hcc ▸ List.mem_cons_self c t)
    have ht : '/' ∉ t := fun hm => h (List.mem_cons_of_mem c hm)
    rw [List.foldl_cons, if_neg hc, lem_proper_id_no_slash t ht (acc ++ [c])]
    simp

/-- C2 as amended: proper_id returns the full last path segment, the
substring after the last slash of the URL, with no further split at a
dash; a slug such as event-name-30045 therefore resolves to itself. -/
theorem c2_proper_id_is_last_segment (a b : List Char) (h : '/' ∉ b) :
    proper_id (a ++ '/' :: b) = b := by
  simp only [proper_id]
  rw [List.foldl_append, List.foldl_cons, if_pos rfl, lem_proper_id_no_slash b h []]
  simp

/-- Witness for the amended C2 at the second slug of the spec example. -/
theorem c2_witness :
    proper_id ("https://www.cbc.ca/player/play/video".toList ++ '/' ::
        "curling-norway-vs-canada-mixed-doubles-round-robin-30045".toList) =
      "curling-norway-vs-canada-mixed-doubles-round-robin-30045".toList :=
  c2_proper_id_is_last_segment _ _ (by decide)

/-- C6 counterexample: a nonempty all-digit string whose value exceeds
the u64 range is not resolved to itself; parse_cbc_id returns the
integer-parse overflow error. -/
theorem c6_counterexample :
    is_numeric ("18446744073709551616".toList) = true ∧
    parse_cbc_id ("18446744073709551616".toList) =
      some (.error "number too large to fit in target type") := by
  constructor
  · decide
  · decide

theorem lem_strip_plus {c : Char} (rest : List Char) (h : ¬ c = '+') :
    strip_plus (c :: rest) = c :: rest := by
  unfold strip_plus
  split
  · rename_i r heq
    rw [List.cons.injEq] at heq
    exact absurd heq.1 h
  · rfl

theorem lem_parse_u64_of_digits {s : List Char} (h : is_numeric s = true) :
    parse_u64 s =
      if digitsVal s < 18446744073709551616 then some (digitsVal s) else none := by
  obtain ⟨c, rest, rfl⟩ : ∃ c rest, s = c :: rest := by
    cases s with
    | nil => simp [is_numeric] at h
    | cons c rest => exact ⟨c, rest, rfl⟩
  have hall : (c :: rest).all (fun x => x.isDigit) = true := by
    simpa [is_numeric] using h
  have hc : c.isDigit = true := by
    have hsplit := (List.all_cons ..).symm.trans hall
    exact ((Bool.and_eq_true ..).mp hsplit).1
  have hplus : ¬ c = '+' := by
    intro hcc
    rw [hcc] at hc
    exact absurd hc (by decide)
  simp only [parse_u64]
  rw [lem_strip_plus rest hplus]
  simp [hall]

/-- C6 as amended: resolution of a nonempty ASCII-digit string succeeds
and returns exactly the number whose decimal digits are the input (the
identifier unchanged) whenever that value fits in an unsigned 64-bit
integer, and returns the overflow error for larger values. -/
theorem c6_numeric_resolution (s : List Char) (h : is_numeric s = true) :
    (digitsVal s < 18446744073709551616 →
      parse_cbc_id s = some (.ok (digitsVal s))) ∧
    (18446744073709551616 ≤ digitsVal s →
      parse_cbc_id s = some (.error "number too large to fit in target type")) := by
  have hp := lem_parse_u64_of_digits h
  constructor
  · intro hlt
    simp [parse_cbc_id, h, hp, hlt]
  · intro hge
    simp [parse_cbc_id, h, hp, Nat.not_lt.mpr hge]

/-- Witness for the amended C6 at the canonical ID of the spec example. -/
theorem c6_witness : parse_cbc_id ("30045".toList) = some (.ok 30045) := by
  have hres := (c6_numeric_resolution ("30045".toList) (by decide)).1 (by decide)
  exact hres.trans (by decide)

/-- C7: the clap validator probably_cbc accepts exactly the inputs that
are numeric or match ID_REGEX; every accepted input reaches parse_cbc_id
without hitting its unwrap panic branch; and an input from which no
identifier can be extracted is rejected with the invalid url error at
the CLI boundary, so the program-level resolution never panics. -/
theorem c7_validator_shields_resolver (input : List Char) :
    (probably_cbc input = .ok () ↔
      (is_numeric input || (id_regex_captures input).isSome) = true) ∧
    (probably_cbc input = .ok () → parse_cbc_id input ≠ none) ∧
    ((is_numeric input || (id_regex_captures input).isSome) = false →
      cli_resolve input = some (.error "invalid url")) ∧
    cli_resolve input ≠ none := by
  by_cases hcond : (is_numeric input || (id_regex_captures input).isSome) = true
  · have hok : probably_cbc input = .ok () := by
      simp [probably_cbc, hcond]
    have hpar : parse_cbc_id input ≠ none := by
      by_cases hn : is_numeric input = true
      · simp [parse_cbc_id, hn]
      · have hn2 : is_numeric input = false := by
          simpa using hn
        have hs : (id_regex_captures input).isSome = true := by
          rcases Bool.or_eq_true_iff.mp hcond with hx | hx
          · exact absurd hx hn
          · exact hx
        obtain ⟨d, hd⟩ := Option.isSome_iff_exists.mp hs
        simp [parse_cbc_id, hn2, hd]
    have hcli : cli_resolve input = parse_cbc_id input := by
      simp [cli_resolve, hok]
    refine ⟨⟨fun _ => hcond, fun _ => hok⟩, fun _ => hpar, ?_, ?_⟩
    · intro hfalse
      rw [hcond] at hfalse
      cases hfalse
    · rw [hcli]
      exact hpar
  · have hfalse : (is_numeric input || (id_regex_captures input).isSome) = false := by
      simpa using hcond
    have herr : probably_cbc input = .error "invalid url" := by
      simp [probably_cbc, hfalse]
    have hcli : cli_resolve input = some (.error "invalid url") := by
      simp [cli_resolve, herr]
    refine ⟨?_, ?_, fun _ => hcli, ?_⟩
    · constructor
      · intro hok
        rw [herr] at hok
        cases hok
      · intro hc
        exact absurd hc hcond
    · intro hok
      rw [herr] at hok
      cases hok
    · rw [hcli]
      exact Option.some_ne_none _

/-- Witness for C7 at an input with no extractable identifier. -/
theorem c7_witness : cli_resolve ("hello".toList) = some (.error "invalid url") :=
  (c7_validator_shields_resolver ("hello".toList)).2.2.1 (by decide)

/-!
Claim theorem for the bistro order selection.
-/

/-- C8: from the first order item, the descriptor whose loader is
PlatformLoader is selected and its key returned; when the first item has
no such descriptor the result is an error whose text names the loader
searched for. -/
theorem c8_platform_loader_selection (first : OrderItem) (rest : List OrderItem) :
    ((∀ d ∈ first.asset_descriptors, d.loader ≠ "PlatformLoader") →
      bistro_select ⟨first :: rest⟩ =
          .error "couldn't find PlatformLoader - are you Canadian?" ∧
        ∃ pre post, "couldn't find PlatformLoader - are you Canadian?" =
          pre ++ "PlatformLoader" ++ post) ∧
    ((∃ d ∈ first.asset_descriptors, d.loader = "PlatformLoader") →
      ∃ d ∈ first.asset_descriptors, d.loader = "PlatformLoader" ∧
        bistro_select ⟨first :: rest⟩ = .ok d.key) := by
  constructor
  · intro hnone
    have hfind : first.asset_descriptors.find?
        (fun d => d.loader == "PlatformLoader") = none := by
      rw [List.find?_eq_none]
      intro d hd
      simpa using hnone d hd
    refine ⟨by simp [bistro_select, hfind], "couldn't find ", " - are you Canadian?", by decide⟩
  · intro hex
    cases hfind : first.asset_descriptors.find?
        (fun d => d.loader == "PlatformLoader") with
    | none =>
      rw [List.find?_eq_none] at hfind
      obtain ⟨d, hd, hl⟩ := hex
      exact absurd (by simpa using hl) (by simpa using hfind d hd)
    | some d =>
      refine ⟨d, List.mem_of_find?_eq_some hfind, ?_, ?_⟩
      · simpa using List.find?_some hfind
      · simp [bistro_select, hfind]

/-- Witness for C8: an order item with no descriptors produces the error
naming PlatformLoader. -/
theorem c8_witness :
    bistro_select ⟨[⟨[]⟩]⟩ =
      .error "couldn't find PlatformLoader - are you Canadian?" :=
  ((c8_platform_loader_selection ⟨[]⟩ []).1 (by simp)).1

/-!
Claim theorems for the proxy rewriters.  The supporting lemmas compute
both rewriters on specs of the shape scheme-and-separator followed by a
host free of the scheme tokens, and show the results are fixed points.
-/

theorem lem_replaceFirst_of_not_contains {pat rep : List Char} :
    ∀ {l : List Char}, lcContains pat l = false → replaceFirst pat rep l = l
  | [], _ => rfl
  | c :: cs, h => by
    rw [lcContains, Bool.or_eq_false_iff] at h
    rw [replaceFirst, if_neg (by simp [h.1]),
      lem_replaceFirst_of_not_contains h.2]

theorem lem_ureq_fixed {s : List Char} (h5h : lcContains pS5h s = false)
    (h4 : lcContains pS4 s = false) (hsep : lcContains pSep s = true) :
    proxy_url_ureq s = s := by
  simp only [proxy_url_ureq]
  rw [lem_replaceFirst_of_not_contains h5h, lem_replaceFirst_of_not_contains h4,
    if_pos hsep]

theorem lem_streamlink_fixed {s : List Char} (h5 : lcContains pS5 s = false)
    (h4 : lcContains pS4 s = false) (hsep : lcContains pSep s = true) :
    proxy_url_streamlink s = s := by
  simp only [proxy_url_streamlink]
  rw [lem_replaceFirst_of_not_contains h5, lem_replaceFirst_of_not_contains h4,
    if_pos hsep]

theorem lem_noc_5h_s5url {host : List Char} (h : lcContains pS5h host = false) :
    lcContains pS5h (pS5url ++ host) = false := by
  simp only [pS5h] at h
  simp [pS5url, pS5h, lcContains, headMatch, h]

theorem lem_noc_4_s5url {host : List Char} (h : lcContains pS4 host = false) :
    lcContains pS4 (pS5url ++ host) = false := by
  simp only [pS4] at h
  simp [pS5url, pS4, lcContains, headMatch, h]

theorem lem_sep_s5url (host : List Char) : lcContains pSep (pS5url ++ host) = true := by
  simp [pS5url, pSep, lcContains, headMatch]

theorem lem_noc_5h_s4aurl {host : List Char} (h : lcContains pS5h host = false) :
    lcContains pS5h (pS4aurl ++ host) = false := by
  simp only [pS5h] at h
  simp [pS4aurl, pS5h, lcContains, headMatch, h]

theorem lem_noc_4_s4aurl {host : List Char} (h : lcContains pS4 host = false) :
    lcContains pS4 (pS4aurl ++ host) = false := by
  simp only [pS4] at h
  simp [pS4aurl, pS4, lcContains, headMatch, h]

theorem lem_sep_s4aurl (host : List Char) : lcContains pSep (pS4aurl ++ host) = true := by
  simp [pS4aurl, pSep, lcContains, headMatch]

theorem lem_noc_5h_s4url {host : List Char} (h : lcContains pS5h host = false) :
    lcContains pS5h (pS4url ++ host) = false := by
  simp only [pS5h] at h
  simp [pS4url, pS5h, lcContains, headMatch, h]

theorem lem_noc_5_s5hurl {host : List Char} (h : lcContains pS5 host = false) :
    lcContains pS5 (pS5hurl ++ host) = false := by
  simp only [pS5] at h
  simp [pS5hurl, pS5, lcContains, headMatch, h]

theorem lem_noc_4_s5hurl {host : List Char} (h : lcContains pS4 host = false) :
    lcContains pS4 (pS5hurl ++ host) = false := by
  simp only [pS4] at h
  simp [pS5hurl, pS4, lcContains, headMatch, h]

theorem lem_sep_s5hurl (host : List Char) : lcContains pSep (pS5hurl ++ host) = true := by
  simp [pS5hurl, pSep, lcContains, headMatch]

theorem lem_noc_5_s4aurl {host : List Char} (h : lcContains pS5 host = false) :
    lcContains pS5 (pS4aurl ++ host) = false := by
  simp only [pS5] at h
  simp [pS4aurl, pS5, lcContains, headMatch, h]

theorem lem_noc_5_s4url {host : List Char} (h : lcContains pS5 host = false) :
    lcContains pS5 (pS4url ++ host) = false := by
  simp only [pS5] at h
  simp [pS4url, pS5, lcContains, headMatch, h]

theorem lem_rf_4_s4url (host : List Char) :
    replaceFirst pS4 pS4a (pS4url ++ host) = pS4aurl ++ host := by
  simp [pS4, pS4a, pS4url, pS4aurl, replaceFirst, headMatch]

theorem lem_rf_5h_s5hurl (host : List Char) :
    replaceFirst pS5h pS5 (pS5hurl ++ host) = pS5url ++ host := by
  simp [pS5h, pS5, pS5hurl, pS5url, replaceFirst, headMatch]

theorem lem_rf_5_s5url (host : List Char) :
    replaceFirst pS5 pS5h (pS5url ++ host) = pS5hurl ++ host := by
  simp [pS5, pS5h, pS5url, pS5hurl, replaceFirst, headMatch]

/-- C9 counterexample: neither rewriter is idempotent on every string;
an input repeating a scheme token changes again under a second
application of either function. -/
theorem c9_counterexample :
    proxy_url_ureq (proxy_url_ureq ("socks5h:socks5h:".toList)) ≠
      proxy_url_ureq ("socks5h:socks5h:".toList) ∧
    proxy_url_streamlink (proxy_url_streamlink ("socks5:socks5:".toList)) ≠
      proxy_url_streamlink ("socks5:socks5:".toList) := by
  constructor
  · decide
  · decide

/-- C9 as amended: both rewriters are idempotent on every proxy spec of
the shape optional scheme (socks4, socks4a, socks5 or socks5h with the
separator) followed by a host part free of the substrings socks4:,
socks5:, socks5h: and of the separator. -/
theorem c9_idempotent_on_proxy_specs (host : List Char)
    (h4 : lcContains pS4 host = false) (h5 : lcContains pS5 host = false)
    (h5h : lcContains pS5h host = false) (hsep : lcContains pSep host = false) :
    proxy_url_ureq (proxy_url_ureq host) = proxy_url_ureq host ∧
    proxy_url_ureq (proxy_url_ureq (pS4url ++ host)) =
      proxy_url_ureq (pS4url ++ host) ∧
    proxy_url_ureq (proxy_url_ureq (pS4aurl ++ host)) =
      proxy_url_ureq (pS4aurl ++ host) ∧
    proxy_url_ureq (proxy_url_ureq (pS5url ++ host)) =
      proxy_url_ureq (pS5url ++ host) ∧
    proxy_url_ureq (proxy_url_ureq (pS5hurl ++ host)) =
      proxy_url_ureq (pS5hurl ++ host) ∧
    proxy_url_streamlink (proxy_url_streamlink host) = proxy_url_streamlink host ∧
    proxy_url_streamlink (proxy_url_streamlink (pS4url ++ host)) =
      proxy_url_streamlink (pS4url ++ host) ∧
    proxy_url_streamlink (proxy_url_streamlink (pS4aurl ++ host)) =
      proxy_url_streamlink (pS4aurl ++ host) ∧
    proxy_url_streamlink (proxy_url_streamlink (pS5url ++ host)) =
      proxy_url_streamlink (pS5url ++ host) ∧
    proxy_url_streamlink (proxy_url_streamlink (pS5hurl ++ host)) =
      proxy_url_streamlink (pS5hurl ++ host) := by
  have u0 : proxy_url_ureq host = pS5url ++ host := by
    simp only [proxy_url_ureq]
    rw [lem_replaceFirst_of_not_contains h5h, lem_replaceFirst_of_not_contains h4,
      if_neg (by simp [hsep])]
  have ufix5 : proxy_url_ureq (pS5url ++ host) = pS5url ++ host :=
    lem_ureq_fixed (lem_noc_5h_s5url h5h) (lem_noc_4_s5url h4) (lem_sep_s5url host)
  have ufix4a : proxy_url_ureq (pS4aurl ++ host) = pS4aurl ++ host :=
    lem_ureq_fixed (lem_noc_5h_s4aurl h5h) (lem_noc_4_s4aurl h4) (lem_sep_s4aurl host)
  have u4 : proxy_url_ureq (pS4url ++ host) = pS4aurl ++ host := by
    simp only [proxy_url_ureq]
    rw [lem_replaceFirst_of_not_contains (lem_noc_5h_s4url h5h), lem_rf_4_s4url,
      if_pos (lem_sep_s4aurl host)]
  have u5h : proxy_url_ureq (pS5hurl ++ host) = pS5url ++ host := by
    simp only [proxy_url_ureq]
    rw [lem_rf_5h_s5hurl, lem_replaceFirst_of_not_contains (lem_noc_4_s5url h4),
      if_pos (lem_sep_s5url host)]
  have s0 : proxy_url_streamlink host = pS5hurl ++ host := by
    simp only [proxy_url_streamlink]
    rw [lem_replaceFirst_of_not_contains h5, lem_replaceFirst_of_not_contains h4,
      if_neg (by simp [hsep])]
  have sfix5h : proxy_url_streamlink (pS5hurl ++ host) = pS5hurl ++ host :=
    lem_streamlink_fixed (lem_noc_5_s5hurl h5) (lem_noc_4_s5hurl h4) (lem_sep_s5hurl host)
  have sfix4a : proxy_url_streamlink (pS4aurl ++ host) = pS4aurl ++ host :=
    lem_streamlink_fixed (lem_noc_5_s4aurl h5) (lem_noc_4_s4aurl h4) (lem_sep_s4aurl host)
  have s4 : proxy_url_streamlink (pS4url ++ host) = pS4aurl ++ host := by
    simp only [proxy_url_streamlink]
    rw [lem_replaceFirst_of_not_contains (lem_noc_5_s4url h5), lem_rf_4_s4url,
      if_pos (lem_sep_s4aurl host)]
  have s5 : proxy_url_streamlink (pS5url ++ host) = pS5hurl ++ host := by
    simp only [proxy_url_streamlink]
    rw [lem_rf_5_s5url, lem_replaceFirst_of_not_contains (lem_noc_4_s5hurl h4),
      if_pos (lem_sep_s5hurl host)]
  refine ⟨?_, ?_, ?_, ?_, ?_, ?_, ?_, ?_, ?_, ?_⟩
  · rw [u0, ufix5]
  · rw [u4, ufix4a]
  · rw [ufix4a, ufix4a]
  · rw [ufix5, ufix5]
  · rw [u5h, ufix5]
  · rw [s0, sfix5h]
  · rw [s4, sfix4a]
  · rw [sfix4a, sfix4a]
  · rw [s5, sfix5h]
  · rw [sfix5h, sfix5h]

/-- Witness for the amended C9 at a plain host and port. -/
theorem c9_witness :
    proxy_url_ureq (proxy_url_ureq ("1.2.3.4:1080".toList)) =
      proxy_url_ureq ("1.2.3.4:1080".toList) :=
  (c9_idempotent_on_proxy_specs ("1.2.3.4:1080".toList)
    (by decide) (by decide) (by decide) (by decide)).1

end CbcSl
